import Mathlib

/-!
Verification of the tab/dock command state machine and the terminal
rendering cache of RustPlay (`src/widgets/dock.rs`, `src/widgets/terminal.rs`).

The dock tree itself is provided by the external `egui_dock` crate; its
operations (`set_focused_node`, `push_to_focused_leaf`, `num_tabs`,
`tabs_count`, tab removal on close) are modelled from the specification's
description of the TabModel/DockTree collaborator.  Everything in `dock.rs`
and `terminal.rs` is translated directly.  Rust panics (out-of-bounds
indexing, `unreachable`, `todo`) are modelled as `Option.none`.
-/

set_option linter.unusedVariables false

namespace RustPlay

/-- A dock tab (`struct Tab` in dock.rs).  The opaque `CodeEditor` field is
dropped; `egui::Id` is modelled by the string it is constructed from
(`Id::new(s)`), which is all the code ever feeds it. -/
structure Tab where
  name : String
  id : String
  scrollOffset : Option (ℚ × ℚ)
deriving DecidableEq, Repr

/-- Modelled from the spec: a node of the DockTree is either a leaf holding an
ordered sequence of tabs (with the index of the active tab) or a split
container / empty slot, mirroring `egui_dock::Node`. -/
inductive DockNode where
  | leaf (tabs : List Tab) (active : Nat)
  | split (fraction : ℚ)
  | empty
deriving DecidableEq, Repr

/-- Modelled from the spec: the DockTree is an ordered hierarchy of nodes with
at most one focused leaf (`egui_dock::Tree`). -/
structure Tree where
  nodes : List DockNode
  focusedNode : Option Nat
deriving DecidableEq, Repr

/-- Number of tabs held directly by a node (`Node::tabs_count`): the length of
a leaf's tab list, zero for non-leaves. -/
def DockNode.tabsCount : DockNode → Nat
  | .leaf tabs _ => tabs.length
  | _ => 0

/-- Whether a node is a leaf. -/
def DockNode.isLeaf : DockNode → Bool
  | .leaf _ _ => true
  | _ => false

/-- Modelled from the spec: total number of tabs in the tree
(`Tree::num_tabs`). -/
def Tree.numTabs (t : Tree) : Nat :=
  (t.nodes.map DockNode.tabsCount).sum

/-- Modelled from the spec: `Tree::set_focused_node` focuses the given node if
it is a leaf and clears the focus otherwise. -/
def Tree.setFocusedNode (t : Tree) (i : Nat) : Tree :=
  match t.nodes.get? i with
  | some (.leaf _ _) => { t with focusedNode := some i }
  | _ => { t with focusedNode := none }

/-- Modelled from the spec: push a tab onto the first leaf of the tree; on a
fully empty tree a fresh root leaf is created.  (Fallback used by
`push_to_focused_leaf` when no leaf is focused.) -/
def Tree.pushToFirstLeaf (t : Tree) (tab : Tab) : Tree :=
  match t.nodes.findIdx? DockNode.isLeaf with
  | some i =>
    match t.nodes.get? i with
    | some (.leaf tabs _) =>
      { nodes := t.nodes.set i (.leaf (tabs ++ [tab]) tabs.length),
        focusedNode := some i }
    | _ => t
  | none =>
    if t.nodes = [] then
      { nodes := [.leaf [tab] 0], focusedNode := some 0 }
    else
      t

/-- Modelled from the spec: `Tree::push_to_focused_leaf` appends a tab to the
focused leaf and makes it active; with no focus on an empty tree it creates
the root leaf. -/
def Tree.pushToFocusedLeaf (t : Tree) (tab : Tab) : Tree :=
  match t.focusedNode with
  | some i =>
    match t.nodes.get? i with
    | some (.leaf tabs _) =>
      { nodes := t.nodes.set i (.leaf (tabs ++ [tab]) tabs.length),
        focusedNode := some i }
    | some .empty =>
      { nodes := t.nodes.set i (.leaf [tab] 0), focusedNode := some i }
    | _ => t.pushToFirstLeaf tab
  | none =>
    if t.nodes = [] then
      { nodes := [.leaf [tab] 0], focusedNode := some 0 }
    else
      t.pushToFirstLeaf tab

/-- The default tab created by `TreeTabs::init` and by the Close handler:
named "Scratch 1", identity derived from that name. -/
def scratch1 : Tab :=
  { name := "Scratch 1", id := "Scratch 1", scrollOffset := none }

/-- Modelled from the spec: `Tree::new(vec![tab])` builds a single root leaf
holding the given tabs, with no focus yet. -/
def Tree.new (tabs : List Tab) : Tree :=
  { nodes := [.leaf tabs 0], focusedNode := none }

/-- `TreeTabs::init` (dock.rs): one default "Scratch 1" tab, root focused. -/
def Tree.init : Tree :=
  (Tree.new [scratch1]).setFocusedNode 0

/-- A menu command (`MenuCommand` in config, emitted by the context menu):
carries the `(NodeIndex, TabIndex)` pair of the targeted tab. -/
inductive MenuCommand where
  | rename (v : Nat × Nat)
  | save (v : Nat × Nat)
  | share (v : Nat × Nat)
deriving DecidableEq, Repr

/-- A tab command (`TabCommand`): add-to-node or close. -/
inductive TabCommand where
  | add (v : Nat)
  | close
deriving DecidableEq, Repr

/-- A deferred command (`Command`): tagged union of the two families. -/
inductive Command where
  | menuCommand (c : MenuCommand)
  | tabCommand (c : TabCommand)
deriving DecidableEq, Repr

/-- `TabViewer::context_menu` (dock.rs lines 123-155): the command selected by
the three buttons.  Note the second `if` overwrites a Rename chosen by the
first one. -/
def contextMenu (renameBtn saveBtn shareBtn : Bool) (nodeindex tabindex : Nat) :
    Option MenuCommand :=
  let command : Option MenuCommand := none
  let command := if renameBtn then some (.rename (nodeindex, tabindex)) else command
  let command :=
    if saveBtn || shareBtn then
      some (if saveBtn then .save (nodeindex, tabindex) else .share (nodeindex, tabindex))
    else command
  command

/-- The commands pushed onto the queue by one context-menu interaction: the
selected command, if any (`data.push` under `if let Some(command)`). -/
def contextMenuEmitted (renameBtn saveBtn shareBtn : Bool) (nodeindex tabindex : Nat) :
    List Command :=
  match contextMenu renameBtn saveBtn shareBtn nodeindex tabindex with
  | some c => [Command.menuCommand c]
  | none => []

/-- GitHub credentials from the config (only the token is ever read). -/
structure GitHub where
  accessToken : String
deriving DecidableEq, Repr

/-- The slice of `Config` that the dock code touches: the tree, the scratch
counter, the command queue and the GitHub credentials. -/
structure Config where
  tree : Tree
  counter : Nat
  commands : List Command
  github : GitHub
deriving DecidableEq, Repr

/-- `Dock::show`'s only queue effect (dock.rs lines 75-79): the commands
emitted during the render pass are appended after the already queued ones
(`extend_from_slice`). -/
def dockShowCommands (queued emitted : List Command) : List Command :=
  queued ++ emitted

/-- Replace tab `j` of leaf node `i` (the `tab.name = ...` mutation through
the borrow obtained in `show_rename_window`). -/
def Tree.setTab (t : Tree) (i j : Nat) (tab : Tab) : Tree :=
  match t.nodes.get? i with
  | some (.leaf tabs a) => { t with nodes := t.nodes.set i (.leaf (tabs.set j tab) a) }
  | _ => t

/-- `TabEvents::show_rename_window` (dock.rs lines 223-254).  `doneClicked`
is the state of the dialog's "Done" button this frame.  Indexing a missing
node, a non-leaf node (the `unreachable` arm) or a missing tab is a panic,
modelled as `none`.  On confirm the tab's name is set to the constant
"nice" and `false` is returned; otherwise `true`. -/
def showRenameWindow (doneClicked : Bool) (nodeindex tabindex : Nat) (tree : Tree) :
    Option (Tree × Bool) :=
  match tree.nodes.get? nodeindex with
  | some (.leaf tabs a) =>
    match tabs.get? tabindex with
    | some tab =>
      if doneClicked then
        some (tree.setTab nodeindex tabindex { tab with name := "nice" }, false)
      else
        some (tree, true)
    | none => none
  | _ => none

/-- `TabEvents::share_scratch` (dock.rs lines 256-264): prints the token and
returns `false` unconditionally; the tree and the indices are unused. -/
def shareScratch (v : Nat × Nat) (tree : Tree) (github : GitHub) : Bool :=
  false

/-- One step of the `retain` closure in `TabEvents::show` (dock.rs lines
171-219): applies a single command to the config and returns whether it
stays queued.  `doneClicked` feeds the rename dialog.  Panics (`todo` for
Save, out-of-bounds `tree[*v]` for Add, the rename panics) are `none`. -/
def processCommand (doneClicked : Bool) (cfg : Config) : Command → Option (Config × Bool)
  | .menuCommand c =>
    match c with
    | .rename v =>
      match showRenameWindow doneClicked v.1 v.2 cfg.tree with
      | some (tree, keep) => some ({ cfg with tree := tree }, keep)
      | none => none
    | .save _ => none
    | .share v => some (cfg, shareScratch v cfg.tree cfg.github)
  | .tabCommand c =>
    match c with
    | .add v =>
      match cfg.tree.nodes.get? v with
      | some node =>
        let cnt := cfg.counter
        let name := s!"Scratch {cnt}"
        let count1 := node.tabsCount + 1
        let tab : Tab :=
          { id := s!"{name}-{v}-{count1}",
            name := name,
            scrollOffset := none }
        let tree := (cfg.tree.setFocusedNode v).pushToFocusedLeaf tab
        some ({ cfg with tree := tree, counter := cfg.counter + 1 }, false)
      | none => none
    | .close =>
      if cfg.tree.numTabs = 0 then
        let tree := (cfg.tree.setFocusedNode 0).pushToFocusedLeaf scratch1
        some ({ cfg with tree := tree, counter := 2 }, false)
      else
        some (cfg, false)

/-- `Vec::retain` over the queue, as performed by `TabEvents::show`: commands
are processed in order, each handler's boolean decides retention, and the
retained commands keep their relative order.  `ui n` is the rename-dialog
button state for the command at queue position `n`. -/
def processQueue (ui : Nat → Bool) (cfg : Config) :
    List Command → Option (Config × List Command)
  | [] => some (cfg, [])
  | c :: rest =>
    match processCommand (ui 0) cfg c with
    | none => none
    | some (cfg1, keep) =>
      match processQueue (fun n => ui (n + 1)) cfg1 rest with
      | none => none
      | some (cfg2, kept) => some (cfg2, if keep then c :: kept else kept)

/-- `TabEvents::show` (dock.rs lines 169-221): drain the queue with `retain`,
leaving exactly the retained commands. -/
def tabEventsShow (ui : Nat → Bool) (cfg : Config) : Option Config :=
  match processQueue ui cfg cfg.commands with
  | some (cfg1, kept) => some { cfg1 with commands := kept }
  | none => none

/-- Modelled from the spec: the dock library removes a closed tab during the
render pass (the `on_close` handler returns `true`); removing the last tab
of the sole root leaf leaves the transient zero-tab tree ("the tree may
legally contain zero tabs only transiently").  Collapse of non-root leaves
is not needed by any claim and is left as the identity. -/
def Tree.removeTab (t : Tree) (i j : Nat) : Tree :=
  match t.nodes.get? i with
  | some (.leaf tabs a) =>
    let tabs1 := tabs.eraseIdx j
    if tabs1 = [] then
      if t.nodes.length = 1 then { nodes := [], focusedNode := none } else t
    else
      { t with nodes := t.nodes.set i (.leaf tabs1 (min a (tabs1.length - 1))) }
  | _ => t

/-- Emission of a Close during the render pass: `on_close` pushes
`TabCommand::Close` and returns `true`, upon which the dock library removes
the tab at `(i, j)`. -/
def onCloseEmit (cfg : Config) (i j : Nat) : Config :=
  { cfg with
      tree := cfg.tree.removeTab i j,
      commands := cfg.commands ++ [Command.tabCommand TabCommand.close] }

/-- All tab names of the tree, in node order. -/
def Tree.tabNames (t : Tree) : List String :=
  t.nodes.flatMap fun n =>
    match n with
    | .leaf tabs _ => tabs.map Tab.name
    | _ => []

/-! ### Terminal: ANSI stripping and the per-stream plain-text cache -/

/-- Parser state of the ANSI stripper: plain text, just after an ESC, or
inside a CSI sequence. -/
inductive StripMode where
  | text
  | escape
  | csi
deriving DecidableEq, Repr

/-- Modelled from the spec: `stripToPlain`'s underlying stripper (the
`strip_ansi_escapes` collaborator) removes ANSI escape sequences, producing
escape-free text.  An ESC (27) opens a sequence; `ESC [` opens a CSI
sequence terminated by a final byte in 64..126; any other ESC sequence is
two characters long. -/
def stripAnsiFrom (mode : StripMode) : List Char → List Char
  | [] => []
  | c :: rest =>
    match mode with
    | .text =>
      if c.toNat = 27 then stripAnsiFrom .escape rest
      else c :: stripAnsiFrom .text rest
    | .escape =>
      if c.toNat = 91 then stripAnsiFrom .csi rest
      else stripAnsiFrom .text rest
    | .csi =>
      if 64 ≤ c.toNat ∧ c.toNat ≤ 126 then stripAnsiFrom .text rest
      else stripAnsiFrom .csi rest

/-- Modelled from the spec: strip all ANSI escape sequences from raw text. -/
def stripAnsi (s : List Char) : List Char :=
  stripAnsiFrom .text s

/-- A plain-text cache entry: the stored content hash and the stripped text
(the `(u64, String)` values of `CACHE_STDOUT` / `CACHE_STDERR`). -/
structure CacheEntry where
  hash : Nat
  plain : List Char
deriving DecidableEq, Repr

/-- The `restrip` closure (terminal.rs lines 271-279): strip the raw text and
pair the result with the hash of the raw input.  The `DefaultHasher` is an
opaque collaborator, passed in as `h`. -/
def restrip (h : List Char → Nat) (text : List Char) : CacheEntry :=
  { hash := h text, plain := stripAnsi text }

/-- One frame of the per-stream plain-text cache (terminal.rs lines 281-301)
for a single stream: a missing entry is first filled from the current raw
text (`or_insert_with`), then the stored hash is compared with the hash of
the current raw text and the entry is recomputed on mismatch. -/
def cacheStep (h : List Char → Nat) (cached : Option CacheEntry) (raw : List Char) :
    CacheEntry :=
  let entry := cached.getD (restrip h raw)
  let newHash := h raw
  if entry.hash ≠ newHash then restrip h raw else entry

/-! ### Terminal: panel open/close state machine -/

/-- The two drag identities the terminal code manipulates: the bottom panel's
resize handle (`id.with("__resize")`) and the closed-handle center line. -/
inductive DragTarget where
  | resizeHandle
  | closedHandleLine
deriving DecidableEq, Repr

/-- The slice of egui memory the terminal reads and writes: which widget is
currently dragged (`is_being_dragged` / `set_dragged_id`). -/
structure EguiMemory where
  dragged : Option DragTarget
deriving DecidableEq, Repr

/-- An egui rectangle (coordinates as rationals; y grows downward). -/
structure Rect where
  left : ℚ
  top : ℚ
  right : ℚ
  bottom : ℚ
deriving DecidableEq, Repr

/-- `Rect::contains`, inclusive on all sides. -/
def Rect.containsPt (r : Rect) (p : ℚ × ℚ) : Prop :=
  r.left ≤ p.1 ∧ p.1 ≤ r.right ∧ r.top ≤ p.2 ∧ p.2 ≤ r.bottom

instance (r : Rect) (p : ℚ × ℚ) : Decidable (r.containsPt p) := by
  unfold Rect.containsPt; infer_instance

/-- `config.terminal`: the panel flags, the active tab identity, the per-tab
scroll offsets and the per-tab raw output streams (stdout, stderr).  The
field `isOpen` models `config.terminal.open`. -/
structure TerminalState where
  isOpen : Bool
  openedFromClose : Bool
  openedFromCloseDragging : Bool
  closedFromOpen : Bool
  activeTab : Option Nat
  scrollOffset : List (Nat × (ℚ × ℚ))
  content : List (Nat × (List Char × List Char))
deriving DecidableEq, Repr

/-- `Terminal::show_closed_handle` (terminal.rs lines 367-421), state effects
only: restore the drag onto the handle line when `closed_from_open` is set,
then open the panel when the drag moved at least 0.5 units upward
(`drag_delta().y <= -0.5`) while the pointer is above the closed-panel
threshold line (`bottom - 17`); a missing pointer defaults to the origin. -/
def showClosedHandle (st : TerminalState) (mem : EguiMemory)
    (dragDeltaY : ℚ) (pointerPos : Option (ℚ × ℚ)) (availRect : Rect) :
    TerminalState × EguiMemory :=
  let st1 := if st.closedFromOpen then { st with closedFromOpen := false } else st
  let mem1 :=
    if st.closedFromOpen then { mem with dragged := some DragTarget.closedHandleLine }
    else mem
  let windowBottom := availRect.bottom - 17
  let p := pointerPos.getD (0, 0)
  if dragDeltaY ≤ -(1 / 2 : ℚ) ∧ p.2 ≤ windowBottom then
    ({ st1 with isOpen := true, openedFromClose := true, openedFromCloseDragging := true },
     mem1)
  else (st1, mem1)

/-- The panel-handling prologue of `Terminal::show` (terminal.rs lines
198-234): close the panel when the pointer sits at or below the close
threshold while the resize handle is dragged, then mark the resize handle
as dragged on the frame following a drag-open (`opened_from_close`), and
finally clear `opened_from_close_dragging` once the resize drag ends. -/
def terminalPanelFlags (st : TerminalState) (mem : EguiMemory)
    (pointerPos : Option (ℚ × ℚ)) (availRect : Rect) :
    TerminalState × EguiMemory :=
  let closeThreshold : ℚ := if st.openedFromCloseDragging then 16 else 20
  let closeRect := { availRect with top := availRect.bottom - closeThreshold }
  let p := pointerPos.getD (0, 0)
  let windowCloseBottom := availRect.bottom - closeThreshold
  let stA :=
    if (closeRect.containsPt p ∨ p.2 ≥ windowCloseBottom) ∧
        mem.dragged = some DragTarget.resizeHandle then
      { st with isOpen := false, closedFromOpen := true }
    else st
  let stB := if stA.openedFromClose then { stA with openedFromClose := false } else stA
  let memB :=
    if stA.openedFromClose then { mem with dragged := some DragTarget.resizeHandle }
    else mem
  let stC :=
    if stB.openedFromCloseDragging ∧ memB.dragged ≠ some DragTarget.resizeHandle then
      { stB with openedFromCloseDragging := false }
    else stB
  (stC, memB)

/-- Modelled from the spec: the frame driver shows the closed handle while the
panel is closed and runs the terminal panel pass in the same processing
step once `open` has been set, so that "the panel's resize-drag handle must
be marked as actively dragged in the same frame". -/
def dragOpenFrame (st : TerminalState) (mem : EguiMemory)
    (dragDeltaY : ℚ) (pointerPos : Option (ℚ × ℚ)) (availRect : Rect) :
    TerminalState × EguiMemory :=
  if (showClosedHandle st mem dragDeltaY pointerPos availRect).1.isOpen then
    terminalPanelFlags (showClosedHandle st mem dragDeltaY pointerPos availRect).1
      (showClosedHandle st mem dragDeltaY pointerPos availRect).2 pointerPos availRect
  else showClosedHandle st mem dragDeltaY pointerPos availRect

/-- The two process-wide plain-text caches (`CACHE_STDOUT`, `CACHE_STDERR`),
keyed by tab identity. -/
structure StreamCaches where
  cacheStdout : List (Nat × CacheEntry)
  cacheStderr : List (Nat × CacheEntry)
deriving DecidableEq, Repr

/-- Update an association list at a key. -/
def setAssoc (k : Nat) (v : CacheEntry) : List (Nat × CacheEntry) → List (Nat × CacheEntry)
  | [] => [(k, v)]
  | (k1, v1) :: rest =>
    if k1 = k then (k, v) :: rest else (k1, v1) :: setAssoc k v rest

/-- The content part of `Terminal::show` (terminal.rs lines 246-304): the
optional active-tab identity is unwrapped — a missing active tab is a
panic, modelled as `none` — then the per-tab raw streams are looked up
(`entry(..).or_default()`) and both plain-text caches take a `cacheStep`;
the stripped texts feed the read-only widgets. -/
def terminalShowContent (h : List Char → Nat) (st : TerminalState)
    (caches : StreamCaches) :
    Option (StreamCaches × List Char × List Char) :=
  match st.activeTab with
  | none => none
  | some activeTab =>
    let offset := (st.scrollOffset.lookup activeTab).getD (0, 0)
    let contentPair := (st.content.lookup activeTab).getD ([], [])
    let eOut := cacheStep h (caches.cacheStdout.lookup activeTab) contentPair.1
    let eErr := cacheStep h (caches.cacheStderr.lookup activeTab) contentPair.2
    some ({ cacheStdout := setAssoc activeTab eOut caches.cacheStdout,
            cacheStderr := setAssoc activeTab eErr caches.cacheStderr },
          eOut.plain, eErr.plain)

/-- `Terminal::show` (terminal.rs lines 171-365), state effects only: the
panel-flag prologue followed by the content pass. -/
def terminalShow (h : List Char → Nat) (st : TerminalState) (mem : EguiMemory)
    (pointerPos : Option (ℚ × ℚ)) (availRect : Rect) (caches : StreamCaches) :
    Option (TerminalState × EguiMemory × StreamCaches × List Char × List Char) :=
  match terminalShowContent h (terminalPanelFlags st mem pointerPos availRect).1 caches with
  | none => none
  | some (caches1, outPlain, errPlain) =>
    some ((terminalPanelFlags st mem pointerPos availRect).1,
          (terminalPanelFlags st mem pointerPos availRect).2, caches1, outPlain, errPlain)

/-! ### Sample inputs used by the witness theorems -/

/-- The tab created by the Add handler: named `Scratch c`, identity derived
from the name, the node index `v` and the node's tab count plus one (`k`). -/
def newScratchTab (c v k : Nat) : Tab :=
  let name := s!"Scratch {c}"
  { id := s!"{name}-{v}-{k}", name := name, scrollOffset := none }

/-- The freshly initialized config: `Tree.init`, counter 2, empty queue. -/
def cfgInit : Config :=
  { tree := Tree.init, counter := 2, commands := [], github := { accessToken := "" } }

/-- A config whose tree is the transient zero-tab tree. -/
def cfgEmptyTree : Config :=
  { tree := { nodes := [], focusedNode := none }, counter := 7, commands := [],
    github := { accessToken := "" } }

/-- A closed terminal state with no active tab. -/
def termClosed : TerminalState :=
  { isOpen := false, openedFromClose := false, openedFromCloseDragging := false,
    closedFromOpen := false, activeTab := none, scrollOffset := [], content := [] }

/-- A 100 × 100 window rectangle. -/
def rect100 : Rect :=
  { left := 0, top := 0, right := 100, bottom := 100 }

/-! ### Helper lemmas -/

theorem sum_map_set (f : DockNode → Nat) (l : List DockNode) (i : Nat) (n n' : DockNode)
    (h : l.get? i = some n) :
    ((l.set i n').map f).sum + f n = (l.map f).sum + f n' := by
  induction l generalizing i with
  | nil => simp at h
  | cons hd tl ih =>
    cases i with
    | zero =>
      simp only [List.get?] at h
      injection h with h
      subst h
      simp only [List.set, List.map, List.sum_cons]
      omega
    | succ k =>
      simp only [List.get?] at h
      have := ih k h
      simp only [List.set, List.map, List.sum_cons]
      omega

theorem numTabs_setFocusedNode (t : Tree) (i : Nat) :
    (t.setFocusedNode i).numTabs = t.numTabs := by
  unfold Tree.setFocusedNode
  split <;> rfl

theorem numTabs_set_leaf_append (t : Tree) (i : Nat) (tabs : List Tab) (a b : Nat)
    (tab : Tab) (foc : Option Nat) (h : t.nodes.get? i = some (.leaf tabs a)) :
    Tree.numTabs { nodes := t.nodes.set i (.leaf (tabs ++ [tab]) b), focusedNode := foc }
      = t.numTabs + 1 := by
  have hs := sum_map_set DockNode.tabsCount t.nodes i _ (DockNode.leaf (tabs ++ [tab]) b) h
  simp only [Tree.numTabs, DockNode.tabsCount, List.length_append, List.length_cons,
    List.length_nil] at hs ⊢
  omega

theorem numTabs_pushToFirstLeaf_le (t : Tree) (tab : Tab) :
    t.numTabs ≤ (t.pushToFirstLeaf tab).numTabs := by
  unfold Tree.pushToFirstLeaf
  split
  · split
    · next tabs a h =>
      rw [numTabs_set_leaf_append t _ tabs a _ tab _ h]
      omega
    · exact le_refl _
  · split
    · next h => simp [Tree.numTabs, h]
    · exact le_refl _

theorem numTabs_pushToFocusedLeaf_le (t : Tree) (tab : Tab) :
    t.numTabs ≤ (t.pushToFocusedLeaf tab).numTabs := by
  unfold Tree.pushToFocusedLeaf
  cases hf : t.focusedNode with
  | none =>
    by_cases hn : t.nodes = []
    · simp [hn, Tree.numTabs]
    · simp only [if_neg hn]
      exact numTabs_pushToFirstLeaf_le t tab
  | some i =>
    cases hg : t.nodes.get? i with
    | none =>
      simp only [hg]
      exact numTabs_pushToFirstLeaf_le t tab
    | some node =>
      cases node with
      | leaf tabs a =>
        simp only [hg]
        rw [numTabs_set_leaf_append t i tabs a tabs.length tab (some i) hg]
        omega
      | split fr =>
        simp only [hg]
        exact numTabs_pushToFirstLeaf_le t tab
      | empty =>
        simp only [hg]
        have hs := sum_map_set DockNode.tabsCount t.nodes i _ (DockNode.leaf [tab] 0) hg
        simp only [Tree.numTabs, DockNode.tabsCount, List.length_cons,
          List.length_nil] at hs ⊢
        omega

/-- Close on the transient zero-tab tree synthesizes the default tab. -/
theorem processCommand_close_empty (b : Bool) (cfg : Config) (h : cfg.tree.nodes = []) :
    processCommand b cfg (.tabCommand .close) =
      some ({ cfg with
                tree := { nodes := [DockNode.leaf [scratch1] 0], focusedNode := some 0 },
                counter := 2 }, false) := by
  obtain ⟨⟨ns, f⟩, cnt, cmds, gh⟩ := cfg
  simp only at h
  subst h
  rfl

/-- Close on a tree that still holds tabs is a no-op returning `false`. -/
theorem processCommand_close_nonempty (b : Bool) (cfg : Config)
    (h : cfg.tree.numTabs ≠ 0) :
    processCommand b cfg (.tabCommand .close) = some (cfg, false) := by
  simp only [processCommand]
  rw [if_neg h]

/-- A tab command that processes successfully never decreases the number of
tabs. -/
theorem processCommand_tab_mono (b : Bool) (cfg cfg' : Config) (tc : TabCommand)
    (keep : Bool) (h : processCommand b cfg (.tabCommand tc) = some (cfg', keep)) :
    cfg.tree.numTabs ≤ cfg'.tree.numTabs := by
  cases tc with
  | add v =>
    simp only [processCommand] at h
    cases hg : cfg.tree.nodes.get? v with
    | none => rw [hg] at h; exact absurd h (by simp)
    | some node =>
      rw [hg] at h
      simp only [Option.some.injEq, Prod.mk.injEq] at h
      obtain ⟨h1, _⟩ := h
      subst h1
      simp only
      calc cfg.tree.numTabs
          = (cfg.tree.setFocusedNode v).numTabs := (numTabs_setFocusedNode cfg.tree v).symm
        _ ≤ _ := numTabs_pushToFocusedLeaf_le _ _
  | close =>
    by_cases hz : cfg.tree.numTabs = 0
    · simp only [processCommand, if_pos hz] at h
      simp only [Option.some.injEq, Prod.mk.injEq] at h
      obtain ⟨h1, _⟩ := h
      subst h1
      simp [hz]
    · rw [processCommand_close_nonempty b cfg hz] at h
      simp only [Option.some.injEq, Prod.mk.injEq] at h
      obtain ⟨h1, _⟩ := h
      subst h1
      exact le_refl _

/-- Processing any queue of tab commands preserves tree non-emptiness. -/
theorem processQueue_tab_pos (ui : Nat → Bool) (cfg cfg' : Config)
    (cmds kept : List Command)
    (htabs : ∀ c ∈ cmds, ∃ tc, c = Command.tabCommand tc)
    (h : processQueue ui cfg cmds = some (cfg', kept))
    (hpos : 1 ≤ cfg.tree.numTabs) : 1 ≤ cfg'.tree.numTabs := by
  induction cmds generalizing ui cfg kept with
  | nil =>
    simp only [processQueue, Option.some.injEq, Prod.mk.injEq] at h
    obtain ⟨h1, _⟩ := h
    subst h1
    exact hpos
  | cons c rest ih =>
    obtain ⟨tc, rfl⟩ := htabs c (List.mem_cons_self c rest)
    cases hc : processCommand (ui 0) cfg (Command.tabCommand tc) with
    | none => simp [processQueue, hc] at h
    | some res =>
      obtain ⟨cfg1, keep⟩ := res
      cases hq : processQueue (fun n => ui (n + 1)) cfg1 rest with
      | none => simp [processQueue, hc, hq] at h
      | some res2 =>
        obtain ⟨cfg2, keptR⟩ := res2
        simp only [processQueue, hc, hq, Option.some.injEq, Prod.mk.injEq] at h
        obtain ⟨h1, _⟩ := h
        subst h1
        have hm := processCommand_tab_mono (ui 0) cfg cfg1 tc keep hc
        exact ih (fun n => ui (n + 1)) cfg1 keptR
          (fun c hm2 => htabs c (List.mem_cons_of_mem _ hm2)) hq (le_trans hpos hm)

/-- The C1 invariant: draining a queue of Add/Close commands never ends with a
zero-tab tree, provided the tree was non-empty or the queue holds the Close
that emptied it. -/
theorem processQueue_never_empty (ui : Nat → Bool) (cfg cfg' : Config)
    (cmds kept : List Command)
    (htabs : ∀ c ∈ cmds, ∃ tc, c = Command.tabCommand tc)
    (h : processQueue ui cfg cmds = some (cfg', kept))
    (hstart : 1 ≤ cfg.tree.numTabs ∨
      (cfg.tree.nodes = [] ∧ Command.tabCommand TabCommand.close ∈ cmds)) :
    1 ≤ cfg'.tree.numTabs := by
  induction cmds generalizing ui cfg kept with
  | nil =>
    simp only [processQueue, Option.some.injEq, Prod.mk.injEq] at h
    obtain ⟨h1, _⟩ := h
    subst h1
    rcases hstart with hpos | ⟨_, hmem⟩
    · exact hpos
    · exact absurd hmem (List.not_mem_nil _)
  | cons c rest ih =>
    rcases hstart with hpos | ⟨hnil, hmem⟩
    · exact processQueue_tab_pos ui cfg cfg' (c :: rest) kept htabs h hpos
    · obtain ⟨tc, rfl⟩ := htabs _ (List.mem_cons_self _ rest)
      cases tc with
      | add v =>
        simp only [processQueue, processCommand, hnil, List.get?] at h
        exact absurd h (by simp)
      | close =>
        have hc := processCommand_close_empty (ui 0) cfg hnil
        cases hq : processQueue (fun n => ui (n + 1))
            { cfg with
                tree := { nodes := [DockNode.leaf [scratch1] 0], focusedNode := some 0 },
                counter := 2 } rest with
        | none => simp [processQueue, hc, hq] at h
        | some res2 =>
          obtain ⟨cfg2, keptR⟩ := res2
          simp only [processQueue, hc, hq, Option.some.injEq, Prod.mk.injEq] at h
          obtain ⟨h1, _⟩ := h
          subst h1
          refine processQueue_tab_pos (fun n => ui (n + 1)) _ cfg2 rest keptR
            (fun c hm2 => htabs c (List.mem_cons_of_mem _ hm2)) hq ?_
          simp [Tree.numTabs, DockNode.tabsCount, scratch1]

/-- The Add handler on a valid leaf node: the exact resulting config. -/
theorem processCommand_add (b : Bool) (cfg : Config) (v : Nat) (tabs : List Tab) (a : Nat)
    (h : cfg.tree.nodes.get? v = some (.leaf tabs a)) :
    processCommand b cfg (.tabCommand (.add v)) =
      some ({ cfg with
                tree := { nodes := cfg.tree.nodes.set v
                            (.leaf (tabs ++ [newScratchTab cfg.counter v (tabs.length + 1)])
                              tabs.length),
                          focusedNode := some v },
                counter := cfg.counter + 1 }, false) := by
  simp only [processCommand, h, Tree.setFocusedNode, Tree.pushToFocusedLeaf, newScratchTab,
    DockNode.tabsCount]

/-- The retained commands form a sublist of the processed queue: emission
order is preserved. -/
theorem processQueue_sublist (ui : Nat → Bool) (cfg cfg' : Config)
    (cmds kept : List Command) (h : processQueue ui cfg cmds = some (cfg', kept)) :
    kept.Sublist cmds := by
  induction cmds generalizing ui cfg cfg' kept with
  | nil =>
    simp only [processQueue, Option.some.injEq, Prod.mk.injEq] at h
    obtain ⟨_, h2⟩ := h
    subst h2
    exact List.Sublist.refl []
  | cons c rest ih =>
    cases hc : processCommand (ui 0) cfg c with
    | none => simp [processQueue, hc] at h
    | some res =>
      obtain ⟨cfg1, keep⟩ := res
      cases hq : processQueue (fun n => ui (n + 1)) cfg1 rest with
      | none => simp [processQueue, hc, hq] at h
      | some res2 =>
        obtain ⟨cfg2, keptR⟩ := res2
        simp only [processQueue, hc, hq, Option.some.injEq, Prod.mk.injEq] at h
        obtain ⟨_, h2⟩ := h
        subst h2
        cases keep with
        | true => simpa using (ih _ _ _ _ hq).cons₂ c
        | false => simpa using (ih _ _ _ _ hq).cons c

/-- Stripping text that holds no ESC character is the identity. -/
theorem stripAnsiFrom_text_noop (s : List Char) :
    (∀ c ∈ s, c.toNat ≠ 27) → stripAnsiFrom StripMode.text s = s := by
  induction s with
  | nil => intro _; rfl
  | cons c rest ih =>
    intro hs
    have hc : c.toNat ≠ 27 := hs c (List.mem_cons_self c rest)
    simp only [stripAnsiFrom, if_neg hc]
    rw [ih fun c2 h2 => hs c2 (List.mem_cons_of_mem _ h2)]

/-- The two drag identities are distinct. -/
theorem closedHandleLine_ne_resizeHandle :
    (DragTarget.closedHandleLine = DragTarget.resizeHandle) = False := by
  simp

/-- The panel-flag prologue never touches the active-tab identity. -/
theorem terminalPanelFlags_activeTab (st : TerminalState) (mem : EguiMemory)
    (pp : Option (ℚ × ℚ)) (r : Rect) :
    (terminalPanelFlags st mem pp r).1.activeTab = st.activeTab := by
  simp only [terminalPanelFlags]
  split_ifs <;> rfl

/-! ### Claim theorems -/

/-- Claim C1: the tree never ends a processing pass with zero tabs.
Processing `TabCommand::Close` on the transient zero-tab tree creates
exactly one tab named "Scratch 1", focuses node 0 and sets the counter
to 2; on a non-empty tree Close changes nothing; after emitting Close on a
one-tab tree and processing, the tree again has exactly one tab named
"Scratch 1" and the counter equals 2; and draining any queue of Add/Close
commands (non-empty start, or the emptying Close still queued) ends with at
least one tab. -/
theorem claim_C1_close_never_empty (b : Bool) (ui : Nat → Bool) (cfg : Config)
    (cmds : List Command) :
    (cfg.tree.nodes = [] →
      processCommand b cfg (.tabCommand .close) =
        some ({ cfg with
                  tree := { nodes := [DockNode.leaf [scratch1] 0], focusedNode := some 0 },
                  counter := 2 }, false)) ∧
    (cfg.tree.numTabs ≠ 0 →
      processCommand b cfg (.tabCommand .close) = some (cfg, false)) ∧
    (∀ (t : Tab) (a : Nat),
      cfg.tree.nodes = [DockNode.leaf [t] a] → cfg.commands = [] →
      tabEventsShow ui (onCloseEmit cfg 0 0) =
        some { cfg with
                 tree := { nodes := [DockNode.leaf [scratch1] 0], focusedNode := some 0 },
                 counter := 2,
                 commands := [] }) ∧
    (∀ (cfg' : Config) (kept : List Command),
      (∀ c ∈ cmds, ∃ tc, c = Command.tabCommand tc) →
      processQueue ui cfg cmds = some (cfg', kept) →
      (1 ≤ cfg.tree.numTabs ∨
        (cfg.tree.nodes = [] ∧ Command.tabCommand TabCommand.close ∈ cmds)) →
      1 ≤ cfg'.tree.numTabs) := by
  refine ⟨processCommand_close_empty b cfg, processCommand_close_nonempty b cfg, ?_, ?_⟩
  · intro t a hnodes hcmds
    obtain ⟨⟨ns, f⟩, cnt, cmdsf, gh⟩ := cfg
    simp only at hnodes hcmds
    subst hnodes
    subst hcmds
    rfl
  · intro cfg' kept htabs h hstart
    exact processQueue_never_empty ui cfg cfg' cmds kept htabs h hstart

/-- Witness for C1: closing the only tab of the freshly initialized tree and
processing restores a single "Scratch 1" tab with the counter at 2. -/
theorem claim_C1_witness :
    tabEventsShow (fun _ => false) (onCloseEmit cfgInit 0 0) =
      some { cfgInit with
               tree := { nodes := [DockNode.leaf [scratch1] 0], focusedNode := some 0 },
               counter := 2,
               commands := [] } :=
  (claim_C1_close_never_empty false (fun _ => false) cfgInit []).2.2.1 scratch1 0 rfl rfl

/-- Claim C2: a per-stream plain-text cache entry is recomputed exactly when
the stored hash differs from the hash of the current raw text: on a hash
match the cached stripped text is returned unchanged, and on a mismatch (or
a missing entry) the hash and the stripped text are both recomputed from
the current raw text in the same step. -/
theorem claim_C2_cache_staleness (h : List Char → Nat) (e : CacheEntry) (raw : List Char) :
    (e.hash = h raw → cacheStep h (some e) raw = e) ∧
    (e.hash ≠ h raw →
      cacheStep h (some e) raw = { hash := h raw, plain := stripAnsi raw }) ∧
    cacheStep h none raw = { hash := h raw, plain := stripAnsi raw } := by
  refine ⟨fun he => ?_, fun he => ?_, ?_⟩
  · simp [cacheStep, restrip, he]
  · simp [cacheStep, restrip, he]
  · simp [cacheStep, restrip]

/-- Witness for C2: a matching hash returns the cached text unchanged; a
stale hash recomputes both fields. -/
theorem claim_C2_witness :
    cacheStep List.length (some { hash := 2, plain := "hi".data }) "hi".data =
      { hash := 2, plain := "hi".data } ∧
    cacheStep List.length (some { hash := 5, plain := "old".data }) "hi".data =
      { hash := 2, plain := stripAnsi "hi".data } :=
  ⟨(claim_C2_cache_staleness List.length { hash := 2, plain := "hi".data } "hi".data).1
      (by decide),
   (claim_C2_cache_staleness List.length { hash := 5, plain := "old".data } "hi".data).2.1
      (by decide)⟩

/-- Claim C3: processing `TabCommand::Add(node)` on a valid leaf appends a
tab named `Scratch {counter}` whose identity is derived from the name, the
node index and the node's tab count plus one, focuses the node, increments
the counter and returns `false`; two Adds queued on a one-tab tree yield
three tabs and advance the counter by 2. -/
theorem claim_C3_add_appends (b : Bool) (ui : Nat → Bool) (cfg : Config) (v : Nat)
    (tabs : List Tab) (a : Nat)
    (h : cfg.tree.nodes.get? v = some (.leaf tabs a)) :
    processCommand b cfg (.tabCommand (.add v)) =
      some ({ cfg with
                tree := { nodes := cfg.tree.nodes.set v
                            (.leaf (tabs ++ [newScratchTab cfg.counter v (tabs.length + 1)])
                              tabs.length),
                          focusedNode := some v },
                counter := cfg.counter + 1 }, false) ∧
    (∀ (t : Tab) (a0 : Nat) (f : Option Nat),
      cfg.tree = { nodes := [DockNode.leaf [t] a0], focusedNode := f } →
      cfg.commands = [.tabCommand (.add 0), .tabCommand (.add 0)] →
      tabEventsShow ui cfg =
        some { cfg with
                 tree := { nodes := [DockNode.leaf
                             [t, newScratchTab cfg.counter 0 2,
                              newScratchTab (cfg.counter + 1) 0 3] 2],
                           focusedNode := some 0 },
                 counter := cfg.counter + 2,
                 commands := [] }) := by
  constructor
  · exact processCommand_add b cfg v tabs a h
  · intro t a0 f htree hcmds
    obtain ⟨⟨ns, fc⟩, cnt, cmdsf, gh⟩ := cfg
    simp only [Tree.mk.injEq] at htree
    obtain ⟨hns, hf⟩ := htree
    simp only at hcmds
    subst hns
    subst hf
    subst hcmds
    rfl

/-- Witness for C3: two Adds on the initial tree produce "Scratch 2" and
"Scratch 3" and advance the counter from 2 to 4. -/
theorem claim_C3_witness :
    tabEventsShow (fun _ => false)
        { cfgInit with commands := [.tabCommand (.add 0), .tabCommand (.add 0)] } =
      some { cfgInit with
               tree := { nodes := [DockNode.leaf
                           [scratch1, newScratchTab 2 0 2, newScratchTab 3 0 3] 2],
                         focusedNode := some 0 },
               counter := 4,
               commands := [] } :=
  (claim_C3_add_appends false (fun _ => false)
      { cfgInit with commands := [.tabCommand (.add 0), .tabCommand (.add 0)] }
      0 [scratch1] 0 rfl).2 scratch1 0 (some 0) rfl rfl

/-- Claim C4 evaluation: the reference handlers do not re-validate indices.
Processing a queued Rename whose node index no longer denotes an existing
leaf panics (modelled as `none`) instead of being silently dropped, and
processing any queued Save panics unconditionally (`todo`); only Share
ignores its stale indices and is dropped without crashing. -/
theorem claim_C4_invalid_index_panics :
    processCommand true cfgInit (.menuCommand (.rename (1, 0))) = none ∧
    showRenameWindow true 1 0 Tree.init = none ∧
    processCommand true cfgInit (.menuCommand (.save (0, 0))) = none ∧
    processCommand true cfgInit (.menuCommand (.share (5, 5))) = some (cfgInit, false) :=
  ⟨rfl, rfl, rfl, rfl⟩

/-- Claim C5: the queue preserves emission order and the processor drains it
in order: commands emitted during a frame land after the already queued
ones, each handler's boolean decides retention, and the retained commands
keep their original relative order (a sublist of the input queue). -/
theorem claim_C5_queue_order (ui : Nat → Bool) (cfg cfg' : Config)
    (queued emitted cmds kept : List Command)
    (h : processQueue ui cfg cmds = some (cfg', kept)) :
    dockShowCommands queued emitted = queued ++ emitted ∧
    kept.Sublist cmds ∧
    (∀ (c : Command) (rest : List Command) (cfg1 cfg2 : Config) (keep : Bool)
        (keptR : List Command),
      processCommand (ui 0) cfg c = some (cfg1, keep) →
      processQueue (fun n => ui (n + 1)) cfg1 rest = some (cfg2, keptR) →
      processQueue ui cfg (c :: rest) =
        some (cfg2, if keep then c :: keptR else keptR)) := by
  refine ⟨rfl, processQueue_sublist ui cfg cfg' cmds kept h, ?_⟩
  intro c rest cfg1 cfg2 keep keptR hc hq
  simp [processQueue, hc, hq]

/-- Witness for C5: a Share command processes to completion and is removed,
leaving the empty retained queue, a sublist of the input. -/
theorem claim_C5_witness :
    List.Sublist ([] : List Command) [Command.menuCommand (MenuCommand.share (0, 0))] :=
  (claim_C5_queue_order (fun _ => false) cfgInit cfgInit [] []
      [Command.menuCommand (MenuCommand.share (0, 0))] [] rfl).2.1

/-- Claim C6: processing `MenuCommand::Rename` returns `true` (stays queued)
while the dialog's confirm button is not clicked; on the click frame it
sets the referenced tab's name to the fixed constant "nice" — not
user-entered text — and returns `false`. -/
theorem claim_C6_rename_constant (cfg : Config) (i j : Nat) (tabs : List Tab) (a : Nat)
    (tab : Tab)
    (hi : cfg.tree.nodes.get? i = some (.leaf tabs a)) (hj : tabs.get? j = some tab) :
    processCommand false cfg (.menuCommand (.rename (i, j))) = some (cfg, true) ∧
    processCommand true cfg (.menuCommand (.rename (i, j))) =
      some ({ cfg with
                tree := { cfg.tree with
                  nodes := cfg.tree.nodes.set i
                    (.leaf (tabs.set j { tab with name := "nice" }) a) } },
            false) := by
  constructor
  · simp only [processCommand, showRenameWindow, hi, hj]
    rfl
  · simp only [processCommand, showRenameWindow, Tree.setTab, hi, hj]
    rfl

/-- Witness for C6: on the initial tree, an unconfirmed rename is retained
unchanged; a confirmed rename sets the name to "nice" and is removed. -/
theorem claim_C6_witness :
    processCommand false cfgInit (.menuCommand (.rename (0, 0))) = some (cfgInit, true) ∧
    processCommand true cfgInit (.menuCommand (.rename (0, 0))) =
      some ({ cfgInit with
                tree := { nodes := [DockNode.leaf [{ scratch1 with name := "nice" }] 0],
                          focusedNode := some 0 } },
            false) :=
  ⟨(claim_C6_rename_constant cfgInit 0 0 [scratch1] 0 scratch1 rfl rfl).1,
   (claim_C6_rename_constant cfgInit 0 0 [scratch1] 0 scratch1 rfl rfl).2⟩

/-- Claim C7 counterexample: with Rename and Share both triggered in the same
pass, the enqueued command is Share, not the first truthy action in the
order Rename, Save, Share (which would be Rename): the second assignment
in `context_menu` overwrites the first. -/
theorem claim_C7_counterexample :
    contextMenu true false true 0 0 = some (MenuCommand.share (0, 0)) ∧
    contextMenu true false true 0 0 ≠ some (MenuCommand.rename (0, 0)) := by
  exact ⟨rfl, by decide⟩

/-- Claim C7 (amended): at most one command is enqueued per context-menu
interaction, and when several buttons are triggered in one pass the
priority is Save, then Share, then Rename (the later assignment wins). -/
theorem claim_C7_amended_priority (r s sh : Bool) (i j : Nat) :
    (contextMenuEmitted r s sh i j).length ≤ 1 ∧
    contextMenu r s sh i j =
      (if s then some (MenuCommand.save (i, j))
       else if sh then some (MenuCommand.share (i, j))
       else if r then some (MenuCommand.rename (i, j))
       else none) := by
  cases r <;> cases s <;> cases sh <;> simp [contextMenu, contextMenuEmitted]

/-- Claim C8: while the panel is closed, a drag of at least 0.5 units upward
on the closed handle with the pointer above the closed-panel threshold line
opens the panel, and the same processing step marks the resize handle as
actively dragged. -/
theorem claim_C8_drag_open (st : TerminalState) (mem : EguiMemory) (d : ℚ) (p : ℚ × ℚ)
    (avail : Rect)
    (hclosed : st.isOpen = false)
    (hdrag : mem.dragged ≠ some DragTarget.resizeHandle)
    (hdelta : d ≤ -(1 / 2 : ℚ))
    (hpointer : p.2 ≤ avail.bottom - 17) :
    (dragOpenFrame st mem d (some p) avail).1.isOpen = true ∧
    (dragOpenFrame st mem d (some p) avail).1.openedFromCloseDragging = true ∧
    (dragOpenFrame st mem d (some p) avail).2.dragged = some DragTarget.resizeHandle := by
  cases hco : st.closedFromOpen with
  | false =>
    simp only [dragOpenFrame, showClosedHandle, terminalPanelFlags, hco, hdelta, hpointer,
      hdrag, Option.getD_some, Bool.false_eq_true, if_false, if_true, ite_true, ite_false,
      true_and, and_true, and_false, false_and, eq_self_iff_true, ne_eq, not_true,
      Option.some.injEq, closedHandleLine_ne_resizeHandle, not_false_iff, and_self]
  | true =>
    simp only [dragOpenFrame, showClosedHandle, terminalPanelFlags, hco, hdelta, hpointer,
      hdrag, Option.getD_some, Bool.false_eq_true, if_false, if_true, ite_true, ite_false,
      true_and, and_true, and_false, false_and, eq_self_iff_true, ne_eq, not_true,
      Option.some.injEq, closedHandleLine_ne_resizeHandle, not_false_iff, and_self]

/-- Witness for C8: a one-unit upward drag at pointer height 3 in a 100-unit
window opens the panel and grabs the resize handle. -/
theorem claim_C8_witness :
    (dragOpenFrame termClosed { dragged := none } (-1) (some (3, 3)) rect100).1.isOpen =
        true ∧
    (dragOpenFrame termClosed { dragged := none } (-1) (some (3, 3))
        rect100).1.openedFromCloseDragging = true ∧
    (dragOpenFrame termClosed { dragged := none } (-1) (some (3, 3)) rect100).2.dragged =
      some DragTarget.resizeHandle :=
  claim_C8_drag_open termClosed { dragged := none } (-1) (3, 3) rect100 rfl
    (by decide) (by norm_num) (by norm_num [rect100])

/-- Claim C9: stripping ANSI escapes from a string containing no escape
sequences returns the string unchanged, and `restrip` pairs it with the
hash of the input. -/
theorem claim_C9_strip_noop (s : List Char) (hs : ∀ c ∈ s, c.toNat ≠ 27) :
    stripAnsi s = s ∧
    ∀ (h : List Char → Nat), restrip h s = { hash := h s, plain := s } := by
  have key : stripAnsi s = s := stripAnsiFrom_text_noop s hs
  exact ⟨key, fun h => by simp [restrip, key]⟩

/-- Witness for C9: an escape-free string passes through the stripper
unchanged. -/
theorem claim_C9_witness :
    stripAnsi "cargo build: ok".data = "cargo build: ok".data :=
  (claim_C9_strip_noop "cargo build: ok".data (by decide)).1

/-- Claim C10: `Terminal::show` unconditionally unwraps the optional
active-tab identity: with no active tab it panics (modelled as `none`)
instead of rendering an empty panel, while with an active tab present it
produces a result. -/
theorem claim_C10_unwrap_active_tab (h : List Char → Nat) (st : TerminalState)
    (mem : EguiMemory) (pp : Option (ℚ × ℚ)) (avail : Rect) (caches : StreamCaches) :
    (st.activeTab = none → terminalShow h st mem pp avail caches = none) ∧
    (∀ tabId : Nat, st.activeTab = some tabId →
      (terminalShow h st mem pp avail caches).isSome = true) := by
  have hpres := terminalPanelFlags_activeTab st mem pp avail
  constructor
  · intro hnone
    simp only [terminalShow, terminalShowContent, hpres, hnone]
  · intro tabId hsome
    simp only [terminalShow, terminalShowContent, hpres, hsome, Option.isSome]

/-- Witness for C10: rendering the terminal with no active tab panics
(modelled as `none`). -/
theorem claim_C10_witness :
    terminalShow List.length termClosed { dragged := none } none rect100
      { cacheStdout := [], cacheStderr := [] } = none :=
  (claim_C10_unwrap_active_tab List.length termClosed { dragged := none } none rect100
      { cacheStdout := [], cacheStderr := [] }).1 rfl

end RustPlay
